import Mathlib

/-!
# Verification of the news-ingestion pipeline (`apps/news`)

A shallow embedding of `src/apps/news/services.py` and the parts of
`src/apps/news/models.py` the pipeline relies on.  Python strings are
modelled as `List Char` (`Str`), Python dict values coming out of
`json.loads` as an inductive `Json` type with Python truthiness, the
persistent `CompanyNews` table as a list of rows with insert-if-absent
semantics mirroring `get_or_create`, and library primitives that are not
part of this repository (`datetime.strptime`, `parsedate_to_datetime`,
`timezone.now`, `hashlib.sha256`, the HTTP fetches and the LLM call) as
explicit function parameters.
-/

namespace NewsPipeline

/-- Python strings, modelled as lists of characters. -/
abbrev Str := List Char

/-- Python `str.lower()` (ASCII case folding, which is all the pipeline needs). -/
def lowerStr (s : Str) : Str := s.map Char.toLower

/-- Whether `needle` occurs at the start of `hay` (helper for substring search). -/
def isPreOf : Str → Str → Bool
  | [], _ => true
  | _ :: _, [] => false
  | a :: as, b :: bs => a == b && isPreOf as bs

/-- Python `needle in hay` on strings: substring containment. -/
def containsSub (needle : Str) : Str → Bool
  | [] => needle.isEmpty
  | c :: rest => isPreOf needle (c :: rest) || containsSub needle rest

/-- Python `str.endswith(suf)`. -/
def endsWithStr (s suf : Str) : Bool := isPreOf suf.reverse s.reverse

/-- Characters stripped by Python `str.strip()` with no argument. -/
def isPySpace (c : Char) : Bool :=
  c == ' ' || c == '\t' || c == '\n' || c == '\r' || c == '\x0b' || c == '\x0c'

/-- Python `str.strip()`. -/
def pyStrip (s : Str) : Str :=
  ((s.dropWhile isPySpace).reverse.dropWhile isPySpace).reverse

/-- Python `str.split()` with no argument: split on whitespace runs,
dropping empty pieces. -/
def splitWS (s : Str) : List Str :=
  (s.splitOnP isPySpace).filter (fun w => !w.isEmpty)

/-- Python `str.split(sep)` for a one-character separator; the result is
never empty (`"".split('.') == ['']`). -/
def splitOnCh (sep : Char) (s : Str) : List Str :=
  s.splitOnP (fun c => c == sep)

/-- First piece of `splitOnCh` — Python `s.split(sep)[0]`. -/
def headPiece (sep : Char) (s : Str) : Str :=
  match splitOnCh sep s with
  | [] => []
  | p :: _ => p

/-- Python `str.replace(pat, rep)`: replace all non-overlapping occurrences,
scanning left to right.  Structural recursion on a fuel counter (each step
consumes at least one character, so `s.length + 1` fuel always suffices);
this keeps the definition kernel-reducible. -/
def replaceAllGo (pat rep : Str) : Nat → Str → Str
  | 0, s => s
  | _ + 1, [] => []
  | fuel + 1, c :: rest =>
    if pat ≠ [] ∧ isPreOf pat (c :: rest) = true then
      rep ++ replaceAllGo pat rep fuel (rest.drop (pat.length - 1))
    else
      c :: replaceAllGo pat rep fuel rest

def replaceAllStr (pat rep s : Str) : Str :=
  replaceAllGo pat rep (s.length + 1) s

/-- Characters allowed in a URL scheme after the first (RFC 3986, as
`urllib.parse` checks them). -/
def isSchemeChar (c : Char) : Bool :=
  c.isAlphanum || c == '+' || c == '-' || c == '.'

/-- A non-empty candidate scheme is valid when it starts with a letter and
uses only scheme characters. -/
def validScheme (pre : Str) : Bool :=
  match pre with
  | [] => false
  | c :: rest => c.isAlpha && (c :: rest).all isSchemeChar

/-- Drop a leading `scheme:` the way `urllib.parse.urlsplit` does before
looking for the authority. -/
def dropScheme (u : Str) : Str :=
  match u.findIdx? (fun c => c == ':') with
  | none => u
  | some i => if validScheme (u.take i) then u.drop (i + 1) else u

/-- Python `urllib.parse.urlparse(url).netloc`: the authority component, present
only after a `//`, ending at the first `/`, `?` or `#`. -/
def netlocOf (u : Str) : Str :=
  let rest := dropScheme u
  if isPreOf ['/', '/'] rest then
    (rest.drop 2).takeWhile (fun c => !(c == '/' || c == '?' || c == '#'))
  else []

/-- Embedding of `_extract_domain` (services.py): bare lowercased domain with every
occurrence of `www.` removed (the source uses `str.replace`, which removes
all occurrences, not only a leading one). -/
def _extract_domain (url : Str) : Str :=
  replaceAllStr ("www.".toList) [] (lowerStr (netlocOf url))

/-- Embedding of `_JUNK_DOMAINS` (services.py): domains that are almost never articles. -/
def _JUNK_DOMAINS : List Str :=
  ["stockanalysis.com", "tradingview.com", "morningstar.com", "tipranks.com",
   "simplywall.st", "macrotrends.net", "wisesheets.io", "dividendmax.com",
   "finviz.com", "chartmill.com"].map String.toList

/-- Embedding of `_JUNK_PATH_PATTERNS` (services.py): the regex is an alternation of
fixed literals (`/quote[s]?/` expands to two), matched case-insensitively;
modelled as substring search on the lowercased URL. -/
def _JUNK_PATH_PATTERNS : List Str :=
  ["/quote/", "/quotes/", "/symbol/", "/stock/quote", "/market-activity/",
   "/investing/stock/", "/finance/quote", "/price-target/", "/etf/",
   "/mutual-fund/"].map String.toList

/-- Search of `_JUNK_PATH_PATTERNS` in a URL with `re.IGNORECASE`. -/
def junkPathSearch (url : Str) : Bool :=
  _JUNK_PATH_PATTERNS.any (fun p => containsSub p (lowerStr url))

/-- Embedding of `_LEGAL_SUFFIXES` (services.py), in source order (longer first where it
matters; the stripping loop takes the first match). -/
def _LEGAL_SUFFIXES : List Str :=
  [", Inc.", ", Inc", " Inc.", " Inc",
   ", LLC", " LLC",
   ", Ltd.", ", Ltd", " Ltd.", " Ltd",
   ", PLC", " PLC", ", Plc", " Plc",
   " Corporation", " Corp.", " Corp",
   " Company", " Co.", " Co",
   " Incorporated",
   " Limited",
   " Group",
   " Holdings",
   " N.V.", " N.V",
   " S.A.", " S.A",
   " SE",
   " AG",
   " S.p.A.", " S.p.A",
   " Oyj",
   " ASA",
   " AB"].map String.toList

/-- Embedding of `_GENERIC_WORDS` (services.py): stoplist for single-word matching. -/
def _GENERIC_WORDS : List Str :=
  ["the", "and", "for", "from", "with", "group", "holdings",
   "international", "technologies", "systems", "services", "global",
   "capital", "financial", "resources", "industries", "partners",
   "management", "solutions", "enterprises"].map String.toList

/-- The suffix-stripping loop of `_extract_common_names`: strip the first
matching legal suffix (then Python `.strip()`), or leave the name alone. -/
def stripLegalSuffix (name : Str) : Str :=
  match _LEGAL_SUFFIXES.find? (fun suf => endsWithStr name suf) with
  | some suf => pyStrip (name.take (name.length - suf.length))
  | none => name

/-- Add to a Python-set model (insertion-ordered list without duplicates). -/
def insertNew (s : List Str) (x : Str) : List Str :=
  if s.contains x then s else s ++ [x]

/-- Embedding of `_extract_common_names` (services.py): the full lowercased name, the
suffix-stripped lowercased name when different and non-empty, and — for
multi-word stripped names — each word of length ≥ 4 outside the generic
stoplist.  The Python set is modelled insertion-ordered. -/
def _extract_common_names (company_name : Str) : List Str :=
  let names := [lowerStr company_name]
  let short := stripLegalSuffix company_name
  let short_lower := lowerStr short
  let names :=
    if short_lower ≠ [] ∧ short_lower ≠ lowerStr company_name then
      insertNew names short_lower
    else names
  let words := splitWS short_lower
  if words.length > 1 then
    words.foldl (fun acc w =>
      if 4 ≤ w.length ∧ (_GENERIC_WORDS.contains w) = false then insertNew acc w
      else acc) names
  else names

/-- The relevance-term set built at the top of `prefilter_results`: the
common names plus each lowercased ticker symbol and its
exchange-suffix-stripped base (`sym.split('.')[0].lower()`). -/
def relevanceTerms (company_name : Str) (ticker_symbols : List Str) : List Str :=
  ticker_symbols.foldl (fun acc sym =>
    let acc := insertNew acc (lowerStr sym)
    let base := lowerStr (headPiece '.' sym)
    if base ≠ [] then insertNew acc base else acc)
    (_extract_common_names company_name)

/-- A raw news item, the per-run record every source adapter produces
(a Python dict; absent keys and `None` values appear as the defaults).
`α` is the datetime type; `published_date` may hold an already-parsed
datetime or a raw date string. -/
inductive PyDate (α : Type) where
  | dt (d : α)
  | str (s : Str)
deriving DecidableEq

structure RawItem (α : Type) where
  url : Str := []
  title : Str := []
  content : Str := []
  published_date : Option (PyDate α) := none
  source : Str := []
  source_name : Str := []
  publisher_url : Str := []
deriving DecidableEq

/-- Rule 1 of `prefilter_results`: domain in the junk set or blacklist. -/
def junkDomainDrop {α : Type} (blacklisted : List Str) (item : RawItem α) : Bool :=
  let domain := _extract_domain item.url
  _JUNK_DOMAINS.contains domain || blacklisted.contains domain

/-- Rule 3 of `prefilter_results`: some relevance term occurs in the
lowercased `"title content"` text. -/
def relevanceOk {α : Type} (terms : List Str) (item : RawItem α) : Bool :=
  terms.any (fun t => containsSub t (lowerStr item.title ++ ' ' :: lowerStr item.content))

/-- The keep condition of the `prefilter_results` loop (the three `continue`
checks, in source order). -/
def keepItem {α : Type} (terms blacklisted : List Str) (item : RawItem α) : Bool :=
  !junkDomainDrop blacklisted item && !junkPathSearch item.url &&
    relevanceOk terms item

/-- Embedding of `prefilter_results` (services.py): rule-based filter before the LLM. -/
def prefilter_results {α : Type} (raw_news : List (RawItem α)) (company_name : Str)
    (ticker_symbols : List Str) (blacklisted_domains : List Str) : List (RawItem α) :=
  raw_news.filter
    (keepItem (relevanceTerms company_name ticker_symbols) blacklisted_domains)

/-! ## JSON values and the classifier output (`process_news_with_ai`) -/

/-- A JSON value as produced by `json.loads` (numbers as integers; no claim
here depends on float values). -/
inductive Json where
  | null
  | bool (b : Bool)
  | num (n : Int)
  | str (s : Str)
  | arr (elems : List Json)
  | obj (fields : List (Str × Json))

/-- Python truthiness of a JSON-derived value (`if x:`). -/
def truthy : Json → Bool
  | .null => false
  | .bool b => b
  | .num n => n != 0
  | .str s => !s.isEmpty
  | .arr xs => !xs.isEmpty
  | .obj fs => !fs.isEmpty

/-- Python `dict.get(k, d)` on a parsed JSON object (`json.loads` gives unique
keys, so first-match lookup is exact). -/
def jgetD (o : List (Str × Json)) (k : Str) (d : Json) : Json :=
  match o.find? (fun p => p.1 == k) with
  | some p => p.2
  | none => d

/-- The per-item dict built by `process_news_with_ai` (services.py lines
724–732); each field holds whatever JSON value the response carried, with
the source's `get` defaults for missing keys. -/
structure ClassifiedItem where
  url : Json
  headline : Json
  summary : Json
  importance : Json
  event_type : Json
  source_name : Json
  published_date : Json

/-- Build the classifier's item dict from one parsed JSON object, with the
defaults of the source (`''`, `'medium'`, `'other'`, `'Unknown'`, `None`). -/
def toClassified (o : List (Str × Json)) : ClassifiedItem where
  url := jgetD o ("url".toList) (.str [])
  headline := jgetD o ("headline".toList) (.str [])
  summary := jgetD o ("summary".toList) (.str [])
  importance := jgetD o ("importance".toList) (.str ("medium".toList))
  event_type := jgetD o ("event_type".toList) (.str ("other".toList))
  source_name := jgetD o ("source_name".toList) (.str ("Unknown".toList))
  published_date := jgetD o ("published_date".toList) .null

/-- View a JSON value as an object; a non-object element of the parsed
array makes `item.get` raise `AttributeError` in the source, which the
enclosing `except Exception` turns into an empty result. -/
def asObj : Json → Option (List (Str × Json))
  | .obj fs => some fs
  | _ => none

/-- The selection loop of `process_news_with_ai` (lines 721–732): keep one
`ClassifiedItem` per element whose `relevant` value is truthy
(`item.get('relevant', False)`); `none` is the raised-exception path (a
non-object element). -/
def extractRelevant : List Json → Option (List ClassifiedItem)
  | [] => some []
  | j :: rest =>
    match asObj j with
    | none => none
    | some o =>
      match extractRelevant rest with
      | none => none
      | some tail =>
        if truthy (jgetD o ("relevant".toList) (.bool false)) then
          toClassified o :: tail
        else tail

/-- Embedding of `process_news_with_ai` (services.py), from the parsed response array
on: the prompt construction, HTTP call and `response.find('[')` /
`json.loads` slicing are external I/O and stdlib; `parsed` is the JSON
array those produce.  `Option.getD []` is the `except Exception: return []`
path. -/
def process_news_with_ai (parsed : List Json) : List ClassifiedItem :=
  (extractRelevant parsed).getD []

/-! ## Date resolution (`_parse_published_date`) -/

/-- The format table tried on the AI-returned date string (source order). -/
def aiDateFormats : List Str :=
  ["%Y-%m-%d", "%Y-%m-%dT%H:%M:%S", "%Y-%m-%dT%H:%M:%SZ"].map String.toList

/-- The format table tried on a string-typed raw date (source order). -/
def rawDateFormats : List Str :=
  ["%Y-%m-%dT%H:%M:%S", "%Y-%m-%dT%H:%M:%SZ", "%Y-%m-%d"].map String.toList

/-- Step 2 of `_parse_published_date`: try the AI date string against the
fixed format table when it is truthy and not the literal `'null'`.  A
non-string truthy value enters the loop in the source but every `strptime`
call raises `TypeError` (caught, `continue`), so it yields nothing. -/
def aiDateParse {α : Type} (strptime : Str → Str → Option α) (ai : Json) : Option α :=
  match ai with
  | .str s =>
    if s ≠ [] ∧ s ≠ "null".toList then
      aiDateFormats.findSome? (fun f => strptime f s)
    else none
  | _ => none

/-- Step 3 of `_parse_published_date`: a string-typed raw date, tried with
all `'Z'` characters removed against the ISO table, then as-is against
RFC-822 (`parsedate_to_datetime`). -/
def rawStrParse {α : Type} (strptime : Str → Str → Option α)
    (rfc822 : Str → Option α) (raw_date : Option (PyDate α)) : Option α :=
  match raw_date with
  | some (.str s) =>
    match rawDateFormats.findSome?
        (fun f => strptime f (s.filter (fun c => !(c == 'Z')))) with
    | some d => some d
    | none => rfc822 s
  | _ => none

/-- The `raw_date` read at the top of `_parse_published_date`:
`raw_news_item.get('published_date') if raw_news_item else None`. -/
def rawDateOf {α : Type} (raw_news_item : Option (RawItem α)) :
    Option (PyDate α) :=
  match raw_news_item with
  | some r => r.published_date
  | none => none

/-- Embedding of `_parse_published_date` (services.py): `strptime`, `rfc822`
(`parsedate_to_datetime`) and `now` (`timezone.now()`) are stdlib/Django
primitives passed as parameters; `raw_news_item = none` is the empty dict
`raw_by_url.get(url, {})` (falsy, so its date reads as `None`); the AI date
is the `published_date` value of the classified item dict. -/
def _parse_published_date {α : Type} (strptime : Str → Str → Option α)
    (rfc822 : Str → Option α) (now : α)
    (raw_news_item : Option (RawItem α)) (ai_item : ClassifiedItem) : α :=
  match rawDateOf raw_news_item with
  | some (.dt d) => d
  | _ =>
    match aiDateParse strptime ai_item.published_date with
    | some d => d
    | none =>
      match rawStrParse strptime rfc822 (rawDateOf raw_news_item) with
      | some d => d
      | none => now

/-! ## Persistence (`CompanyNews.objects.get_or_create`) and the store step -/

/-- The company context the pipeline reads: primary key, organization,
display name, ticker symbols (prefilter), the primary ticker's symbol
(adapters) and the organization's `BlacklistedDomain` rows. -/
structure Company where
  id : Nat
  organization : Nat
  name : Str
  ticker_symbols : List Str
  primary_ticker : Option Str
  blacklisted_domains : List Str
deriving DecidableEq

/-- One `CompanyNews` row as the pipeline creates it (models.py).
`headline`/`summary`/`source_name`/`importance`/`event_type` hold the JSON
values the store step passes in; `is_read`/`is_starred` are the
presentation-owned flags with their model defaults. -/
structure StoredRow (α : Type) where
  company : Nat
  organization : Nat
  url_hash : Str
  headline : Json
  summary : Json
  source_url : Str
  source_name : Json
  source_type : Str
  publisher_domain : Str
  importance : Json
  event_type : Json
  published_at : α
  fetched_at : α
  is_read : Bool := false
  is_starred : Bool := false

/-- Embedding of `CompanyNews.objects.get_or_create(company, url_hash, defaults)`:
look up by the two keyword fields only; create with the defaults when
absent, touch nothing when present.  Returns the table and `created`. -/
def getOrCreate {α : Type} (db : List (StoredRow α)) (row : StoredRow α) :
    List (StoredRow α) × Bool :=
  if db.any (fun r => r.company == row.company && r.url_hash == row.url_hash) then
    (db, false)
  else (db ++ [row], true)

/-- Python slicing `x[:n]` on a JSON value: works on strings and lists; on
any other value the source raises `TypeError` (caught by the per-item
`try`, which skips the item). -/
def pyTake (j : Json) (n : Nat) : Option Json :=
  match j with
  | .str s => some (.str (s.take n))
  | .arr xs => some (.arr (xs.take n))
  | _ => none

/-- Python `a or b` on JSON-derived values: the first truthy operand, else
the second. -/
def pyOr (a b : Json) : Json := if truthy a then a else b

/-- The `raw_by_url` dict (`{item['url']: item for item in filtered_news}`):
a later item with the same URL overwrites an earlier one, so lookup finds
the last match; a missing key reads as the empty dict (`none`). -/
def rawByUrl {α : Type} (filtered : List (RawItem α)) (url : Str) :
    Option (RawItem α) :=
  filtered.reverse.find? (fun item => item.url == url)

/-- Result of the store step: the table, the count of actual insertions,
and whether an uncaught exception escaped the loop. -/
structure StoreOutcome (α : Type) where
  db : List (StoredRow α)
  count : Nat
  raised : Bool

/-- The row the store step hands to `get_or_create` for one classified
item with string URL `url` and successfully sliced `headline`,
`source_name` and `event_type` values: fingerprint `H url`, channel
derived from the URL (`sec.gov` → `sec_edgar`), resolved date, publisher
domain preferred from the raw item's `publisher_url`, and the item's
`summary`/`importance` values verbatim. -/
def buildRow {α : Type} (strptime : Str → Str → Option α)
    (rfc822 : Str → Option α) (now : α) (H : Str → Str) (company : Company)
    (filtered : List (RawItem α)) (item : ClassifiedItem) (url : Str)
    (headline source_name event_type : Json) : StoredRow α :=
  { company := company.id
    organization := company.organization
    url_hash := H url
    headline := headline
    summary := item.summary
    source_url := url.take 2000
    source_name := source_name
    source_type :=
      if containsSub ("sec.gov".toList) (lowerStr url) then ("sec_edgar".toList)
      else ("web".toList)
    publisher_domain :=
      if ((rawByUrl filtered url).getD {}).publisher_url ≠ [] then
        _extract_domain (((rawByUrl filtered url).getD {}).publisher_url)
      else []
    importance := item.importance
    event_type := event_type
    published_at :=
      _parse_published_date strptime rfc822 now (rawByUrl filtered url) item
    fetched_at := now }

/-- Step 4 of `fetch_and_store_news` (services.py lines 890–939), one
classified item at a time.  A falsy `url` is skipped; a truthy non-string
`url` makes `url.encode()` raise before the `try`, aborting the loop
(`raised := true`); a `TypeError` from slicing a non-sliceable field inside
the `try` is caught and skips the item; `cond` counts an actual insert. -/
def storeLoop {α : Type} (strptime : Str → Str → Option α)
    (rfc822 : Str → Option α) (now : α) (H : Str → Str) (company : Company)
    (filtered : List (RawItem α)) :
    List ClassifiedItem → List (StoredRow α) → Nat → StoreOutcome α
  | [], db, n => ⟨db, n, false⟩
  | item :: rest, db, n =>
    if truthy item.url = false then
      storeLoop strptime rfc822 now H company filtered rest db n
    else
      match item.url with
      | .str url =>
        match pyTake item.headline 500,
            pyTake (pyOr item.source_name
              (pyOr (.str (((rawByUrl filtered url).getD {}).source_name))
                (.str ("Unknown".toList)))) 100,
            pyTake item.event_type 50 with
        | some headline, some source_name, some event_type =>
          let res := getOrCreate db (buildRow strptime rfc822 now H company
            filtered item url headline source_name event_type)
          storeLoop strptime rfc822 now H company filtered rest res.1
            (cond res.2 (n + 1) n)
        | _, _, _ => storeLoop strptime rfc822 now H company filtered rest db n
      | _ => ⟨db, n, true⟩

/-- The cross-source URL dedup loop of `fetch_and_store_news` (lines
839–847), with the `seen_urls` set as an accumulator: keep an item when its
URL is truthy (non-empty) and not yet seen. -/
def dedupeByUrlGo {α : Type} : List (RawItem α) → List Str → List (RawItem α)
  | [], _ => []
  | item :: rest, seen =>
    if item.url ≠ [] ∧ seen.contains item.url = false then
      item :: dedupeByUrlGo rest (item.url :: seen)
    else dedupeByUrlGo rest seen

def dedupeByUrl {α : Type} (raw_news : List (RawItem α)) : List (RawItem α) :=
  dedupeByUrlGo raw_news []

/-- Embedding of `fetch_and_store_news` (services.py): the full per-company pipeline.
The concurrent adapter fan-out delivers `raw_news` in some arrival order
(a parameter, since `as_completed` fixes no order); `parsed` is the JSON
array recovered from the classifier response (the network call and
response slicing are external).  `db` is the `CompanyNews` table. -/
def fetch_and_store_news {α : Type} (strptime : Str → Str → Option α)
    (rfc822 : Str → Option α) (now : α) (H : Str → Str) (company : Company)
    (raw_news : List (RawItem α)) (parsed : List Json)
    (db : List (StoredRow α)) : StoreOutcome α :=
  if raw_news.isEmpty then ⟨db, 0, false⟩
  else
    let deduped := dedupeByUrl raw_news
    let filtered := prefilter_results deduped company.name company.ticker_symbols
      company.blacklisted_domains
    if filtered.isEmpty then ⟨db, 0, false⟩
    else
      let processed := process_news_with_ai parsed
      if processed.isEmpty then ⟨db, 0, false⟩
      else storeLoop strptime rfc822 now H company filtered processed db 0

/-- Embedding of `fetch_news_for_companies` (services.py): run the per-company pipeline
for every company, catching each failure as one `"name: error"` entry and
summing the successes.  `run` is the per-company outcome (`Except` models
"returned a count" vs "raised"); the `as_completed` arrival order is
modelled as list order — the total is a sum, hence order-independent. -/
def fetch_news_for_companies (run : Company → Except Str Nat)
    (companies : List Company) : Nat × List Str :=
  companies.foldl (fun acc c =>
    match run c with
    | .ok k => (acc.1 + k, acc.2)
    | .error e => (acc.1, acc.2 ++ [c.name ++ ": ".toList ++ e])) (0, [])

/-! ## The web-news adapter (`search_google_news`) -/

/-- Python `min(iterable, key=len, default=d)`: the first element of
minimal length, or the default on an empty iterable. -/
def minByLen : List Str → Str → Str
  | [], d => d
  | x :: xs, _ => xs.foldl (fun m n => if n.length < m.length then n else m) x

/-- The `short_name` picked in `search_google_news` (lines 259–265): the
shortest name variant longer than 2 characters, defaulting to the full
company name. -/
def shortNameOf (company_name : Str) : Str :=
  minByLen ((_extract_common_names company_name).filter (fun n => 2 < n.length))
    company_name

/-- Uppercase hex digit. -/
def hexDigit (n : Nat) : Char :=
  if n < 10 then Char.ofNat ('0'.toNat + n) else Char.ofNat ('A'.toNat + n - 10)

/-- Percent escape of one byte. -/
def percentByte (b : Nat) : Str := ['%', hexDigit (b / 16), hexDigit (b % 16)]

/-- UTF-8 bytes of one character (for `urllib.parse.quote_plus`). -/
def utf8Bytes (c : Char) : List Nat :=
  let n := c.toNat
  if n < 0x80 then [n]
  else if n < 0x800 then [0xC0 + n / 64, 0x80 + n % 64]
  else if n < 0x10000 then
    [0xE0 + n / 4096, 0x80 + (n / 64) % 64, 0x80 + n % 64]
  else
    [0xF0 + n / 262144, 0x80 + (n / 4096) % 64, 0x80 + (n / 64) % 64,
     0x80 + n % 64]

/-- Python `urllib.parse.quote_plus`: ASCII letters, digits and `_.-~` kept,
space becomes `+`, everything else percent-encoded byte-wise. -/
def quote_plus (s : Str) : Str :=
  s.flatMap (fun c =>
    if c.isAlphanum || c == '_' || c == '.' || c == '-' || c == '~' then [c]
    else if c == ' ' then ['+']
    else (utf8Bytes c).flatMap percentByte)

/-- The query list built at the top of `search_google_news` (lines
254–270): the quoted short name, then `"<symbol> stock"` when the company
has a primary ticker. -/
def buildGoogleQueries (company : Company) : List Str :=
  let short_name := shortNameOf company.name
  let q1 := quote_plus ('"' :: (short_name ++ ['"']))
  match company.primary_ticker with
  | some sym => [q1, quote_plus (sym ++ " stock".toList)]
  | none => [q1]

/-- The RSS search URL for one query (line 276). -/
def rssUrl (days_back : Nat) (q : Str) : Str :=
  "https://news.google.com/rss/search?q=".toList ++ q ++ "+when:".toList ++
    (toString days_back).toList ++ "d&hl=en-US&gl=US&ceid=US:en".toList

/-- One `<item>` element of a parsed RSS channel, as the source reads it:
`findtext` results with their `or ''` defaults, the optional `pubDate`
text, and the optional `<source>` element as (url attribute, text). -/
structure RssEntry where
  link : Str := []
  title : Str := []
  pubDate : Option Str := none
  description : Str := []
  source_el : Option (Str × Str) := none
deriving DecidableEq

/-- Index of the last occurrence of `pat` in `s`, if any. -/
def lastOccIdx (pat s : Str) : Option Nat :=
  (List.range (s.length + 1)).reverse.find? (fun i => isPreOf pat (s.drop i))

/-- Python `s.rsplit(pat, 1)` when `pat` occurs: split at the last
occurrence. -/
def rsplitOnce (pat s : Str) : Str × Str :=
  match lastOccIdx pat s with
  | some i => (s.take i, s.drop (i + pat.length))
  | none => (s, [])

/-- Python `re.sub` of the tag regex by one space: each `<`…`>` run with at least one
character inside becomes one space; an unclosed or empty `<>` stays.
Fuel-based structural recursion (`s.length + 1` fuel always suffices),
keeping the definition kernel-reducible. -/
def stripTagsGo : Nat → Str → Str
  | 0, s => s
  | _ + 1, [] => []
  | fuel + 1, c :: rest =>
    if c == '<' then
      let inner := rest.takeWhile (fun d => !(d == '>'))
      if 1 ≤ inner.length ∧ inner.length < rest.length then
        ' ' :: stripTagsGo fuel (rest.drop (inner.length + 1))
      else c :: stripTagsGo fuel rest
    else c :: stripTagsGo fuel rest

def stripTags (s : Str) : Str := stripTagsGo (s.length + 1) s

/-- The per-`<item>` record construction of `search_google_news` (lines
302–337), after the link has passed the seen/empty check.  `parsedate` is
`email.utils.parsedate_to_datetime` (`none` models its exception). -/
def gnewsItem {α : Type} (parsedate : Str → Option α) (e : RssEntry)
    (link : Str) : RawItem α :=
  let t0 := pyStrip e.title
  let split1 :=
    if containsSub (" - ".toList) t0 then rsplitOnce (" - ".toList) t0 else (t0, [])
  let published_date : Option α :=
    match e.pubDate with
    | some s => if s ≠ [] then parsedate s else none
    | none => none
  let description := pyStrip (stripTags (pyStrip e.description))
  let withSource :=
    match e.source_el with
    | some pr => (pr.1, if split1.2 ≠ [] then split1.2 else pyStrip pr.2)
    | none => (([] : Str), split1.2)
  { url := link
    title := split1.1
    content := description
    published_date := published_date.map PyDate.dt
    source := "google_news".toList
    source_name := withSource.2
    publisher_url := withSource.1 }

/-- The `<item>` loop of one query (lines 296–340): skip empty/seen links,
append the built record, and `break` once `max_results` is reached. -/
def gnewsLoop {α : Type} (parsedate : Str → Option α) (max_results : Nat) :
    List RssEntry → List Str → List (RawItem α) → List Str × List (RawItem α)
  | [], seen, results => (seen, results)
  | e :: es, seen, results =>
    let link := pyStrip e.link
    if link = [] ∨ seen.contains link = true then
      gnewsLoop parsedate max_results es seen results
    else
      let results2 := results ++ [gnewsItem parsedate e link]
      if max_results ≤ results2.length then (link :: seen, results2)
      else gnewsLoop parsedate max_results es (link :: seen) results2

/-- Embedding of `search_google_news` (services.py): build the queries, fetch each RSS
feed (`fetch` returns the parsed channel items — empty on HTTP error,
parse error or missing channel, which the source turns into `continue`),
and run the item loop with `seen_urls` shared across queries. -/
def search_google_news {α : Type} (parsedate : Str → Option α)
    (fetch : Str → List RssEntry) (company : Company)
    (days_back : Nat := 3) (max_results : Nat := 15) : List (RawItem α) :=
  ((buildGoogleQueries company).foldl
    (fun acc q => gnewsLoop parsedate max_results (fetch (rssUrl days_back q))
      acc.1 acc.2)
    (([] : List Str), ([] : List (RawItem α)))).2

/-! ## Helper lemmas -/

theorem mem_insertNew {s : List Str} {a : Str} (x : Str) (h : a ∈ s) :
    a ∈ insertNew s x := by
  unfold insertNew
  split
  · exact h
  · exact List.mem_append_left _ h

theorem mem_foldl_of_mem {β : Type} (f : List Str → β → List Str) (l : List β)
    {a : Str} (init : List Str) (h : a ∈ init)
    (hf : ∀ acc w, a ∈ acc → a ∈ f acc w) : a ∈ l.foldl f init := by
  induction l generalizing init with
  | nil => exact h
  | cons w ws ih => exact ih _ (hf init w h)

/-- The full lowercased legal name is always among the common-name
variants: it is the seed of the set and every later step only adds. -/
theorem lower_name_mem_extract (company_name : Str) :
    lowerStr company_name ∈ _extract_common_names company_name := by
  unfold _extract_common_names
  have h0 : lowerStr company_name ∈ [lowerStr company_name] := List.mem_singleton.mpr rfl
  dsimp only
  split
  · split
    · exact mem_foldl_of_mem _ _ _ (mem_insertNew _ h0)
        (fun acc w ha => by split <;> [exact mem_insertNew _ ha; exact ha])
    · exact mem_foldl_of_mem _ _ _ h0
        (fun acc w ha => by split <;> [exact mem_insertNew _ ha; exact ha])
  · split
    · exact mem_insertNew _ h0
    · exact h0

/-- Common-name variants survive into the prefilter's relevance-term set. -/
theorem extract_mem_relevanceTerms {a : Str} (company_name : Str)
    (ticker_symbols : List Str) (h : a ∈ _extract_common_names company_name) :
    a ∈ relevanceTerms company_name ticker_symbols := by
  unfold relevanceTerms
  refine mem_foldl_of_mem _ _ _ h (fun acc sym ha => ?_)
  dsimp only
  split
  · exact mem_insertNew _ (mem_insertNew _ ha)
  · exact mem_insertNew _ ha

/-! ## C6 — the prefilter never relevance-drops an exact name match -/

/-- C6: for every raw item whose lowercased title-plus-snippet contains the
exact company name (case-insensitive), the prefilter relevance check
passes — the full lowercased legal name is one of the relevance terms — and
hence the item is kept by `prefilter_results` whenever the domain and
URL-pattern rules also pass. -/
theorem prefilter_keeps_exact_name_match {α : Type} (raw_news : List (RawItem α))
    (company_name : Str) (ticker_symbols blacklisted_domains : List Str)
    (item : RawItem α)
    (hname : containsSub (lowerStr company_name)
      (lowerStr item.title ++ ' ' :: lowerStr item.content) = true) :
    relevanceOk (relevanceTerms company_name ticker_symbols) item = true ∧
    (item ∈ raw_news → junkDomainDrop blacklisted_domains item = false →
      junkPathSearch item.url = false →
      item ∈ prefilter_results raw_news company_name ticker_symbols
        blacklisted_domains) := by
  have hterm : lowerStr company_name ∈ relevanceTerms company_name ticker_symbols :=
    extract_mem_relevanceTerms _ _ (lower_name_mem_extract company_name)
  have hrel : relevanceOk (relevanceTerms company_name ticker_symbols) item = true := by
    unfold relevanceOk
    exact List.any_eq_true.mpr ⟨_, hterm, hname⟩
  refine ⟨hrel, fun hmem hdom hpath => ?_⟩
  unfold prefilter_results
  refine List.mem_filter.mpr ⟨hmem, ?_⟩
  unfold keepItem
  rw [hdom, hpath, hrel]
  rfl

/-- Closed witness for C6 at a concrete company and item. -/
theorem prefilter_keeps_exact_name_match_witness :
    relevanceOk (relevanceTerms ("Acme Corp".toList) ["ACME".toList])
      ({ url := "https://news.example.com/a".toList,
         title := "Acme Corp beats earnings".toList,
         content := "profit up".toList } : RawItem Nat) = true ∧
    (({ url := "https://news.example.com/a".toList,
        title := "Acme Corp beats earnings".toList,
        content := "profit up".toList } : RawItem Nat) ∈
      prefilter_results
        [({ url := "https://news.example.com/a".toList,
            title := "Acme Corp beats earnings".toList,
            content := "profit up".toList } : RawItem Nat)]
        "Acme Corp".toList ["ACME".toList] []) := by
  have h := prefilter_keeps_exact_name_match
    [({ url := "https://news.example.com/a".toList,
        title := "Acme Corp beats earnings".toList,
        content := "profit up".toList } : RawItem Nat)]
    "Acme Corp".toList ["ACME".toList] []
    { url := "https://news.example.com/a".toList,
      title := "Acme Corp beats earnings".toList,
      content := "profit up".toList }
    (by decide)
  exact ⟨h.1, h.2 (List.mem_singleton.mpr rfl) (by decide) (by decide)⟩

/-! ## C8 — cross-adapter dedup keeps the first item per non-empty URL -/

/-- Invariant of the dedup loop: output URLs are distinct, every kept item
is the first of its URL in the remaining input and not yet seen, and every
unseen non-empty input URL is represented. -/
theorem dedupeGo_spec {α : Type} (l : List (RawItem α)) : ∀ seen : List Str,
    ((dedupeByUrlGo l seen).map (fun x => x.url)).Nodup ∧
    (∀ x ∈ dedupeByUrlGo l seen, x.url ≠ [] ∧ x.url ∉ seen ∧
      l.find? (fun y => y.url == x.url) = some x) ∧
    (∀ x ∈ l, x.url ≠ [] → x.url ∉ seen →
      ∃ y ∈ dedupeByUrlGo l seen, y.url = x.url) := by
  induction l with
  | nil => intro seen; simp [dedupeByUrlGo]
  | cons item rest ih =>
    intro seen
    by_cases hcond : item.url ≠ [] ∧ seen.contains item.url = false
    · rw [dedupeByUrlGo, if_pos hcond]
      obtain ⟨hnd, hspec, hcov⟩ := ih (item.url :: seen)
      have hnotseen : item.url ∉ seen := by
        intro hmem
        rw [List.contains_eq_any_beq] at hcond
        exact absurd (List.any_eq_true.mpr ⟨_, hmem, beq_self_eq_true _⟩)
          (by simp [hcond.2])
      refine ⟨?_, ?_, ?_⟩
      · simp only [List.map_cons, List.nodup_cons]
        refine ⟨?_, hnd⟩
        intro hmem
        obtain ⟨y, hy, hyu⟩ := List.mem_map.mp hmem
        obtain ⟨-, hynot, -⟩ := hspec y hy
        rw [hyu] at hynot
        exact hynot (List.mem_cons_self _ _)
      · intro x hx
        rcases List.mem_cons.mp hx with hxi | hxout
        · subst hxi
          exact ⟨hcond.1, hnotseen,
            List.find?_cons_of_pos _ (beq_self_eq_true _)⟩
        · obtain ⟨hne, hnotin, hfind⟩ := hspec x hxout
          refine ⟨hne, fun hmem => hnotin (List.mem_cons_of_mem _ hmem), ?_⟩
          have hneq : (x.url == item.url) = false := by
            rw [beq_eq_false_iff_ne]
            intro he
            exact hnotin (he ▸ List.mem_cons_self _ _)
          have hneq2 : (item.url == x.url) = false := by
            rw [beq_eq_false_iff_ne]
            intro he
            exact hnotin (by rw [← he]; exact List.mem_cons_self _ _)
          rw [List.find?_cons_of_neg _ (by simp [hneq2]), hfind]
      · intro x hx hxne hxnotin
        rcases List.mem_cons.mp hx with hxi | hxrest
        · subst hxi
          exact ⟨x, List.mem_cons_self _ _, rfl⟩
        · by_cases hsame : x.url = item.url
          · exact ⟨item, List.mem_cons_self _ _, hsame.symm⟩
          · obtain ⟨y, hy, hyu⟩ := hcov x hxrest hxne (by
              intro hmem
              rcases List.mem_cons.mp hmem with h1 | h2
              · exact hsame h1
              · exact hxnotin h2)
            exact ⟨y, List.mem_cons_of_mem _ hy, hyu⟩
    · rw [dedupeByUrlGo, if_neg hcond]
      obtain ⟨hnd, hspec, hcov⟩ := ih seen
      have hdrop : item.url = [] ∨ item.url ∈ seen := by
        rcases not_and_or.mp hcond with h1 | h2
        · exact Or.inl (not_not.mp h1)
        · right
          have ht : seen.contains item.url = true := by
            cases hb : seen.contains item.url
            · exact absurd hb h2
            · rfl
          rw [List.contains_eq_any_beq] at ht
          obtain ⟨u, hu, hbeq⟩ := List.any_eq_true.mp ht
          exact (eq_of_beq hbeq) ▸ hu
      refine ⟨hnd, ?_, ?_⟩
      · intro x hx
        obtain ⟨hne, hnotin, hfind⟩ := hspec x hx
        refine ⟨hne, hnotin, ?_⟩
        have hneq2 : (item.url == x.url) = false := by
          rw [beq_eq_false_iff_ne]
          intro he
          rcases hdrop with h1 | h2
          · exact hne (by rw [← he, h1])
          · exact hnotin (he ▸ h2)
        rw [List.find?_cons_of_neg _ (by simp [hneq2]), hfind]
      · intro x hx hxne hxnotin
        rcases List.mem_cons.mp hx with hxi | hxrest
        · exfalso
          subst hxi
          rcases hdrop with h1 | h2
          · exact hxne h1
          · exact hxnotin h2
        · exact hcov x hxrest hxne hxnotin

/-- C8: the cross-adapter dedup step keeps exactly one item per distinct
non-empty URL — every kept item is the first occurrence of its URL in
merge order, kept URLs are pairwise distinct, and every non-empty input
URL is represented. -/
theorem dedupe_keeps_first_per_url {α : Type} (l : List (RawItem α)) :
    ((dedupeByUrl l).map (fun x => x.url)).Nodup ∧
    (∀ x ∈ dedupeByUrl l, x.url ≠ [] ∧
      l.find? (fun y => y.url == x.url) = some x) ∧
    (∀ x ∈ l, x.url ≠ [] → ∃ y ∈ dedupeByUrl l, y.url = x.url) := by
  obtain ⟨hnd, hspec, hcov⟩ := dedupeGo_spec l []
  exact ⟨hnd, fun x hx => ⟨(hspec x hx).1, (hspec x hx).2.2⟩,
    fun x hx hne => hcov x hx hne (by simp)⟩

/-- Closed witness for C8: two adapters return the same URL with different
titles; exactly the first survives. -/
theorem dedupe_keeps_first_per_url_witness :
    (dedupeByUrl
        [({ url := "https://u".toList, title := "t1".toList } : RawItem Nat),
         { url := "https://u".toList, title := "t2".toList }]).map
      (fun x => x.url) = [("https://u".toList : Str)] ∧
    List.find?
        (fun y => y.url == ("https://u".toList : Str))
        [({ url := "https://u".toList, title := "t1".toList } : RawItem Nat),
         { url := "https://u".toList, title := "t2".toList }] =
      some { url := "https://u".toList, title := "t1".toList } := by
  refine ⟨by decide, ?_⟩
  have h := (dedupe_keeps_first_per_url
    [({ url := "https://u".toList, title := "t1".toList } : RawItem Nat),
     { url := "https://u".toList, title := "t2".toList }]).2.1
    { url := "https://u".toList, title := "t1".toList } (by decide)
  exact h.2

/-! ## C1 — the classifier step enforces no 3-item cap -/

/-- C1 counterexample: a parsed response with four `relevant: true` objects
yields four classified items — the source never truncates to 3 (the bound
is only requested from the model in the prompt text). -/
theorem classifier_cap_counterexample :
    ¬ (process_news_with_ai
      [Json.obj [("relevant".toList, Json.bool true),
                 ("url".toList, Json.str ("https://a".toList))],
       Json.obj [("relevant".toList, Json.bool true),
                 ("url".toList, Json.str ("https://b".toList))],
       Json.obj [("relevant".toList, Json.bool true),
                 ("url".toList, Json.str ("https://c".toList))],
       Json.obj [("relevant".toList, Json.bool true),
                 ("url".toList, Json.str ("https://d".toList))]]).length ≤ 3 := by
  decide

theorem extractRelevant_length_le :
    ∀ (parsed : List Json) (l : List ClassifiedItem),
      extractRelevant parsed = some l → l.length ≤ parsed.length := by
  intro parsed
  induction parsed with
  | nil =>
    intro l h
    rw [extractRelevant] at h
    injection h with h2
    subst h2
    exact Nat.le_refl 0
  | cons j rest ih =>
    intro l h
    rw [extractRelevant] at h
    cases hobj : asObj j with
    | none => rw [hobj] at h; cases h
    | some o =>
      rw [hobj] at h
      cases htail : extractRelevant rest with
      | none => rw [htail] at h; cases h
      | some tail =>
        rw [htail] at h
        dsimp only at h
        by_cases hrel : truthy (jgetD o ("relevant".toList) (Json.bool false)) = true
        · rw [if_pos hrel] at h
          injection h with h2
          subst h2
          exact Nat.succ_le_succ (ih tail htail)
        · rw [if_neg hrel] at h
          injection h with h2
          subst h2
          exact Nat.le_succ_of_le (ih tail htail)

/-- C1 amended: the classifier step returns one item per `relevant`-marked
element of the parsed response list — hence at most the parsed list's
length, with no fixed cap of 3. -/
theorem classifier_output_le_parsed (parsed : List Json) :
    (process_news_with_ai parsed).length ≤ parsed.length := by
  unfold process_news_with_ai
  cases h : extractRelevant parsed with
  | none => simp
  | some l => simpa using extractRelevant_length_le parsed l h

/-! ## C10 — inclusion is by Python truthiness of `relevant`, not `== true` -/

/-- C10 counterexample: an item whose `relevant` field is the string
`"no"` — a value other than `true` — is nevertheless kept, because the
source tests `item.get('relevant', False)` by truthiness and any non-empty
string is truthy. -/
theorem relevant_truthy_counterexample :
    (process_news_with_ai
      [Json.obj [("relevant".toList, Json.str ("no".toList)),
                 ("url".toList, Json.str ("https://x".toList))]]).length = 1 ∧
    jgetD [("relevant".toList, Json.str ("no".toList)),
           ("url".toList, Json.str ("https://x".toList))]
        "relevant".toList (Json.bool false) = Json.str ("no".toList) ∧
    Json.str ("no".toList) ≠ Json.bool true :=
  ⟨by decide, rfl, fun h => Json.noConfusion h⟩

/-- C10 amended: when parsing succeeds, an item is in the classifier
output exactly when its parsed object's `relevant` value (default
`False`) is truthy in the Python sense: missing and `false` discard, and
any truthy value — not only the boolean `true` — keeps the item. -/
theorem classifier_keeps_iff_truthy (parsed : List Json)
    (l : List ClassifiedItem) (h : extractRelevant parsed = some l) :
    process_news_with_ai parsed = l ∧
    (∀ c ∈ l, ∃ j ∈ parsed, ∃ o, asObj j = some o ∧
      truthy (jgetD o ("relevant".toList) (Json.bool false)) = true ∧
      c = toClassified o) ∧
    (∀ j ∈ parsed, ∀ o, asObj j = some o →
      truthy (jgetD o ("relevant".toList) (Json.bool false)) = true →
      toClassified o ∈ l) := by
  refine ⟨by unfold process_news_with_ai; rw [h]; rfl, ?_⟩
  induction parsed generalizing l with
  | nil =>
    rw [extractRelevant] at h
    injection h with h2
    subst h2
    exact ⟨fun c hc => absurd hc (List.not_mem_nil c),
      fun j hj => absurd hj (List.not_mem_nil j)⟩
  | cons j rest ih =>
    rw [extractRelevant] at h
    cases hobj : asObj j with
    | none => rw [hobj] at h; cases h
    | some o =>
      rw [hobj] at h
      cases htail : extractRelevant rest with
      | none => rw [htail] at h; cases h
      | some tail =>
        rw [htail] at h
        dsimp only at h
        obtain ⟨ihA, ihB⟩ := ih tail htail
        by_cases hrel : truthy (jgetD o ("relevant".toList) (Json.bool false)) = true
        · rw [if_pos hrel] at h
          injection h with h2
          subst h2
          constructor
          · intro c hc
            rcases List.mem_cons.mp hc with hchead | hctail
            · exact ⟨j, List.mem_cons_self _ _, o, hobj, hrel, hchead⟩
            · obtain ⟨j2, hj2, o2, ho2, hrel2, hc2⟩ := ihA c hctail
              exact ⟨j2, List.mem_cons_of_mem _ hj2, o2, ho2, hrel2, hc2⟩
          · intro j2 hj2 o2 ho2 hrel2
            rcases List.mem_cons.mp hj2 with hjhead | hjtail
            · subst hjhead
              rw [hobj] at ho2
              injection ho2 with ho3
              subst ho3
              exact List.mem_cons_self _ _
            · exact List.mem_cons_of_mem _ (ihB j2 hjtail o2 ho2 hrel2)
        · rw [if_neg hrel] at h
          injection h with h2
          subst h2
          constructor
          · intro c hc
            obtain ⟨j2, hj2, o2, ho2, hrel2, hc2⟩ := ihA c hc
            exact ⟨j2, List.mem_cons_of_mem _ hj2, o2, ho2, hrel2, hc2⟩
          · intro j2 hj2 o2 ho2 hrel2
            rcases List.mem_cons.mp hj2 with hjhead | hjtail
            · subst hjhead
              rw [hobj] at ho2
              injection ho2 with ho3
              subst ho3
              exact absurd hrel2 hrel
            · exact ihB j2 hjtail o2 ho2 hrel2

/-- Closed witness for C10's amended statement at a concrete parsed list:
the truthy-`relevant` object is kept, the `false` one is not. -/
theorem classifier_keeps_iff_truthy_witness :
    process_news_with_ai
      [Json.obj [("relevant".toList, Json.bool true),
                 ("url".toList, Json.str ("https://a".toList))],
       Json.obj [("relevant".toList, Json.bool false),
                 ("url".toList, Json.str ("https://b".toList))]] =
      [toClassified [("relevant".toList, Json.bool true),
                     ("url".toList, Json.str ("https://a".toList))]] ∧
    toClassified [("relevant".toList, Json.bool true),
                  ("url".toList, Json.str ("https://a".toList))] ∈
      [toClassified [("relevant".toList, Json.bool true),
                     ("url".toList, Json.str ("https://a".toList))]] := by
  have h := classifier_keeps_iff_truthy
    [Json.obj [("relevant".toList, Json.bool true),
               ("url".toList, Json.str ("https://a".toList))],
     Json.obj [("relevant".toList, Json.bool false),
               ("url".toList, Json.str ("https://b".toList))]]
    [toClassified [("relevant".toList, Json.bool true),
                   ("url".toList, Json.str ("https://a".toList))]]
    rfl
  exact ⟨h.1, h.2.2 _ (List.mem_cons_self _ _) _ rfl rfl⟩

/-! ## C9 — multi-company fan-out isolates per-company failures -/

theorem fanout_fold (run : Company → Except Str Nat) (companies : List Company) :
    ∀ t es, companies.foldl (fun acc c =>
      match run c with
      | .ok k => (acc.1 + k, acc.2)
      | .error e => (acc.1, acc.2 ++ [c.name ++ ": ".toList ++ e])) (t, es) =
    (t + (companies.map (fun c =>
        match run c with | .ok k => k | .error _ => 0)).sum,
      es ++ companies.filterMap (fun c =>
        match run c with
        | .error e => some (c.name ++ ": ".toList ++ e)
        | .ok _ => none)) := by
  induction companies with
  | nil => intro t es; simp
  | cons c cs ih =>
    intro t es
    cases hr : run c with
    | ok k =>
      simp only [List.foldl_cons, hr, List.map_cons, List.sum_cons,
        List.filterMap_cons, ih]
      rw [Nat.add_assoc]
    | error e =>
      simp only [List.foldl_cons, hr, List.map_cons, List.sum_cons,
        List.filterMap_cons, ih]
      simp [List.append_assoc]

/-- C9: the multi-company run is total (never raises), processes every
company, returns as total exactly the sum of the successful companies'
counts (a failed company contributes 0 and does not stop its siblings),
and returns one `"name: error"` entry per failed company. -/
theorem fanout_error_isolation (run : Company → Except Str Nat)
    (companies : List Company) :
    fetch_news_for_companies run companies =
      ((companies.map (fun c =>
          match run c with | .ok k => k | .error _ => 0)).sum,
        companies.filterMap (fun c =>
          match run c with
          | .error e => some (c.name ++ ": ".toList ++ e)
          | .ok _ => none)) := by
  unfold fetch_news_for_companies
  simpa using fanout_fold run companies 0 []

/-! ## Concrete fixtures for closed evaluations -/

/-- A concrete company: id 7, organization 3, one ticker. -/
def acmeCo : Company :=
  ⟨7, 3, "Acme Corp".toList, ["ACME".toList], some ("ACME".toList), []⟩

/-- A raw item that survives the prefilter for `acmeCo`. -/
def acmeRaw : RawItem Nat :=
  { url := "https://news.example.com/acme-earnings".toList,
    title := "Acme beats earnings".toList,
    content := "Acme Corp reported record profit".toList }

/-- A parsed classifier response whose one relevant item carries an
importance and event type outside the recognized enum values. -/
def criticalParsed : List Json :=
  [Json.obj [("relevant".toList, Json.bool true),
    ("url".toList, Json.str ("https://news.example.com/acme-earnings".toList)),
    ("importance".toList, Json.str ("critical".toList)),
    ("event_type".toList, Json.str ("odd".toList))]]

/-- The end-to-end pipeline run on the fixtures against an empty table
(identity as the fingerprint hash, constant 99 as `now`). -/
def criticalRun : StoreOutcome Nat :=
  fetch_and_store_news (fun _ _ => none) (fun _ => none) 99 (fun s => s)
    acmeCo [acmeRaw] criticalParsed []

/-! ## C2 — unrecognized enum values are stored as-is, not coerced -/

/-- The `CompanyNews.Importance` choices (models.py). -/
def importanceChoices : List Str := ["high", "medium", "low"].map String.toList

/-- The event categories of the classifier contract (models.py help text
and the prompt's `event_type` alternatives). -/
def eventCategories : List Str :=
  ["earnings", "management", "M&A", "regulatory", "product", "legal",
   "analyst", "filing", "other"].map String.toList

/-- C2 counterexample: a classifier response with `importance:
"critical"` and `event_type: "odd"` — values outside the recognized enum
sets — is stored verbatim by the pipeline, not coerced to medium/other and
not rejected. -/
theorem importance_passthrough_counterexample :
    criticalRun.count = 1 ∧
    criticalRun.db.map (fun r => r.importance) = [Json.str ("critical".toList)] ∧
    "critical".toList ∉ importanceChoices ∧
    criticalRun.db.map (fun r => r.event_type) = [Json.str ("odd".toList)] ∧
    "odd".toList ∉ eventCategories :=
  ⟨rfl, rfl, by decide, rfl, by decide⟩

/-! ## C5 — date resolution is total and tries its sources in order -/

/-- C5: `_parse_published_date` resolves in the fixed fallback order —
(1) a datetime already parsed by the adapter on the raw item, (2) the
classifier's date string against the fixed format table, (3) a
string-typed raw date against ISO then RFC-822 forms, (4) the current
time — and therefore returns a value for every combination of
present/absent dates (the last conjunct: when every source fails, the
result is `now`, never absent). -/
theorem date_resolution_total_and_ordered {α : Type}
    (strptime : Str → Str → Option α) (rfc822 : Str → Option α) (now : α)
    (raw : Option (RawItem α)) (ai_item : ClassifiedItem) :
    (∀ d, rawDateOf raw = some (PyDate.dt d) →
      _parse_published_date strptime rfc822 now raw ai_item = d) ∧
    (∀ d, (∀ e, rawDateOf raw ≠ some (PyDate.dt e)) →
      aiDateParse strptime ai_item.published_date = some d →
      _parse_published_date strptime rfc822 now raw ai_item = d) ∧
    (∀ d, (∀ e, rawDateOf raw ≠ some (PyDate.dt e)) →
      aiDateParse strptime ai_item.published_date = none →
      rawStrParse strptime rfc822 (rawDateOf raw) = some d →
      _parse_published_date strptime rfc822 now raw ai_item = d) ∧
    ((∀ e, rawDateOf raw ≠ some (PyDate.dt e)) →
      aiDateParse strptime ai_item.published_date = none →
      rawStrParse strptime rfc822 (rawDateOf raw) = none →
      _parse_published_date strptime rfc822 now raw ai_item = now) := by
  refine ⟨?_, ?_, ?_, ?_⟩
  · intro d h
    unfold _parse_published_date
    rw [h]
  · intro d hdt hai
    unfold _parse_published_date
    cases hcase : rawDateOf raw with
    | none => rw [hai]
    | some pd =>
      cases pd with
      | dt e => exact absurd hcase (hdt e)
      | str s => rw [hai]
  · intro d hdt hai hrs
    unfold _parse_published_date
    cases hcase : rawDateOf raw with
    | none =>
      rw [hcase] at hrs
      rw [hai, hrs]
    | some pd =>
      cases pd with
      | dt e => exact absurd hcase (hdt e)
      | str s =>
        rw [hcase] at hrs
        rw [hai, hrs]
  · intro hdt hai hrs
    unfold _parse_published_date
    cases hcase : rawDateOf raw with
    | none =>
      rw [hcase] at hrs
      rw [hai, hrs]
    | some pd =>
      cases pd with
      | dt e => exact absurd hcase (hdt e)
      | str s =>
        rw [hcase] at hrs
        rw [hai, hrs]

/-- Closed witness for C5: with no parsed datetime, an unparseable AI date
and no raw date string, resolution falls back to `now`; with an
adapter-parsed datetime present, that datetime wins. -/
theorem date_resolution_total_and_ordered_witness :
    _parse_published_date (α := Nat) (fun _ _ => none) (fun _ => none) 99 none
      (toClassified [("relevant".toList, Json.bool true)]) = 99 ∧
    _parse_published_date (α := Nat) (fun _ _ => none) (fun _ => none) 99
      (some { url := "https://u".toList,
              published_date := some (PyDate.dt 7) })
      (toClassified [("relevant".toList, Json.bool true)]) = 7 := by
  constructor
  · exact (date_resolution_total_and_ordered (fun _ _ => none) (fun _ => none)
      99 none (toClassified [("relevant".toList, Json.bool true)])).2.2.2
      (fun e h => by cases h) rfl rfl
  · exact (date_resolution_total_and_ordered (fun _ _ => none) (fun _ => none)
      99 (some { url := "https://u".toList,
                 published_date := some (PyDate.dt 7) })
      (toClassified [("relevant".toList, Json.bool true)])).1 7 rfl

/-! ## Store-step lemmas (C2 amended, C3, C4) -/

/-- No two rows of the table share the (company, url_hash) pair — the
`unique_together` invariant of `CompanyNews.Meta`. -/
def keysNodup {α : Type} (db : List (StoredRow α)) : Prop :=
  db.Pairwise (fun a b => ¬(a.company = b.company ∧ a.url_hash = b.url_hash))

/-- The `get_or_create` step either finds a row with the same key and changes
nothing, or appends a row whose key is fresh. -/
theorem getOrCreate_cases {α : Type} (db : List (StoredRow α))
    (row : StoredRow α) :
    (getOrCreate db row = (db, false) ∧
      ∃ r ∈ db, r.company = row.company ∧ r.url_hash = row.url_hash) ∨
    (getOrCreate db row = (db ++ [row], true) ∧
      ∀ r ∈ db, ¬(r.company = row.company ∧ r.url_hash = row.url_hash)) := by
  unfold getOrCreate
  by_cases hany :
      db.any (fun r => r.company == row.company && r.url_hash == row.url_hash) = true
  · left
    rw [if_pos hany]
    obtain ⟨r, hr, hb⟩ := List.any_eq_true.mp hany
    rw [Bool.and_eq_true, beq_iff_eq, beq_iff_eq] at hb
    exact ⟨rfl, r, hr, hb⟩
  · right
    rw [if_neg hany]
    refine ⟨rfl, fun r hr hkey => hany ?_⟩
    exact List.any_eq_true.mpr ⟨r, hr, by rw [hkey.1, hkey.2]; simp⟩

/-- The store loop only appends rows: the input table is a prefix of the
output, every appended row belongs to the company and carries some
processed item's `importance` value verbatim, and key-uniqueness is
preserved (insert-if-absent only inserts fresh keys). -/
theorem storeLoop_growth {α : Type} (strptime : Str → Str → Option α)
    (rfc822 : Str → Option α) (now : α) (H : Str → Str) (company : Company)
    (filtered : List (RawItem α)) (items : List ClassifiedItem) :
    ∀ (db : List (StoredRow α)) (n : Nat),
      ∃ extra,
        (storeLoop strptime rfc822 now H company filtered items db n).db =
          db ++ extra ∧
        (∀ r ∈ extra, r.company = company.id ∧
          ∃ item ∈ items, r.importance = item.importance) ∧
        (keysNodup db →
          keysNodup (storeLoop strptime rfc822 now H company filtered
            items db n).db) := by
  induction items with
  | nil =>
    intro db n
    exact ⟨[], by simp [storeLoop], fun r hr => absurd hr (List.not_mem_nil r),
      fun h => by rw [storeLoop]; exact h⟩
  | cons item rest ih =>
    intro db n
    have hweaken : ∀ (db2 : List (StoredRow α)) (r : StoredRow α),
        (r.company = company.id ∧ ∃ it ∈ rest, r.importance = it.importance) →
        r.company = company.id ∧
          ∃ it ∈ item :: rest, r.importance = it.importance :=
      fun db2 r ⟨h1, it, hit, h2⟩ => ⟨h1, it, List.mem_cons_of_mem _ hit, h2⟩
    rw [storeLoop]
    by_cases hturl : truthy item.url = false
    · rw [if_pos hturl]
      obtain ⟨extra, heq, hprov, hnd⟩ := ih db n
      exact ⟨extra, heq, fun r hr => hweaken db r (hprov r hr), hnd⟩
    · rw [if_neg hturl]
      cases hu : item.url with
      | str url =>
        dsimp only
        cases hh : pyTake item.headline 500 with
        | none =>
          obtain ⟨extra, heq, hprov, hnd⟩ := ih db n
          exact ⟨extra, heq, fun r hr => hweaken db r (hprov r hr), hnd⟩
        | some headline =>
          cases hsn : pyTake (pyOr item.source_name
              (pyOr (.str (((rawByUrl filtered url).getD {}).source_name))
                (.str ("Unknown".toList)))) 100 with
          | none =>
            obtain ⟨extra, heq, hprov, hnd⟩ := ih db n
            exact ⟨extra, heq, fun r hr => hweaken db r (hprov r hr), hnd⟩
          | some source_name =>
            cases het : pyTake item.event_type 50 with
            | none =>
              obtain ⟨extra, heq, hprov, hnd⟩ := ih db n
              exact ⟨extra, heq, fun r hr => hweaken db r (hprov r hr), hnd⟩
            | some event_type =>
              dsimp only
              rcases getOrCreate_cases db (buildRow strptime rfc822 now H
                  company filtered item url headline source_name event_type)
                with hfound | hfresh
              · rw [hfound.1]
                dsimp only
                obtain ⟨extra, heq, hprov, hnd⟩ := ih db n
                exact ⟨extra, heq, fun r hr => hweaken db r (hprov r hr), hnd⟩
              · rw [hfresh.1]
                dsimp only
                obtain ⟨extra, heq, hprov, hnd⟩ :=
                  ih (db ++ [buildRow strptime rfc822 now H company filtered
                    item url headline source_name event_type]) (n + 1)
                refine ⟨buildRow strptime rfc822 now H company filtered item
                  url headline source_name event_type :: extra,
                  by simpa using heq, ?_, ?_⟩
                · intro r hr
                  rcases List.mem_cons.mp hr with hrhead | hrtail
                  · subst hrhead
                    exact ⟨rfl, item, List.mem_cons_self _ _, rfl⟩
                  · exact hweaken db r (hprov r hrtail)
                · intro hdb
                  apply hnd
                  rw [keysNodup, List.pairwise_append]
                  refine ⟨hdb, List.pairwise_singleton _ _, ?_⟩
                  intro a ha b hb
                  rw [List.mem_singleton] at hb
                  subst hb
                  exact hfresh.2 a ha
      | null =>
        exact ⟨[], by simp, fun r hr => absurd hr (List.not_mem_nil r),
          fun h => h⟩
      | bool b =>
        exact ⟨[], by simp, fun r hr => absurd hr (List.not_mem_nil r),
          fun h => h⟩
      | num m =>
        exact ⟨[], by simp, fun r hr => absurd hr (List.not_mem_nil r),
          fun h => h⟩
      | arr xs =>
        exact ⟨[], by simp, fun r hr => absurd hr (List.not_mem_nil r),
          fun h => h⟩
      | obj fs =>
        exact ⟨[], by simp, fun r hr => absurd hr (List.not_mem_nil r),
          fun h => h⟩

/-- When every item of the list either has a falsy URL or a string URL
whose (company, fingerprint) key already has a row, the store loop changes
nothing: same table, same count, no error. -/
theorem storeLoop_noop {α : Type} (strptime : Str → Str → Option α)
    (rfc822 : Str → Option α) (now : α) (H : Str → Str) (company : Company)
    (filtered : List (RawItem α)) (items : List ClassifiedItem) :
    ∀ (db : List (StoredRow α)) (n : Nat),
      (∀ item ∈ items, truthy item.url = false ∨
        ∃ s, item.url = Json.str s ∧
          ∃ r ∈ db, r.company = company.id ∧ r.url_hash = H s) →
      storeLoop strptime rfc822 now H company filtered items db n =
        ⟨db, n, false⟩ := by
  induction items with
  | nil => intro db n h; rw [storeLoop]
  | cons item rest ih =>
    intro db n h
    have hitem := h item (List.mem_cons_self _ _)
    have hrest := fun it hit => h it (List.mem_cons_of_mem item hit)
    rw [storeLoop]
    by_cases hturl : truthy item.url = false
    · rw [if_pos hturl]
      exact ih db n hrest
    · rw [if_neg hturl]
      rcases hitem with hf | ⟨s, hus, r, hr, hc, hh⟩
      · exact absurd hf hturl
      · rw [hus]
        dsimp only
        cases hh1 : pyTake item.headline 500 with
        | none => exact ih db n hrest
        | some headline =>
          cases hh2 : pyTake (pyOr item.source_name
              (pyOr (.str (((rawByUrl filtered s).getD {}).source_name))
                (.str ("Unknown".toList)))) 100 with
          | none => exact ih db n hrest
          | some source_name =>
            cases hh3 : pyTake item.event_type 50 with
            | none => exact ih db n hrest
            | some event_type =>
              dsimp only
              have hany : getOrCreate db (buildRow strptime rfc822 now H
                  company filtered item s headline source_name event_type) =
                  (db, false) := by
                unfold getOrCreate
                rw [if_pos]
                refine List.any_eq_true.mpr ⟨r, hr, ?_⟩
                show (r.company == company.id && r.url_hash == H s) = true
                rw [hc, hh]
                simp
              rw [hany]
              exact ih db n hrest

/-! ## C2 amended — missing fields default, present values pass through -/

/-- C2 amended: a parsed item with a **missing** importance / event type /
source name gets the safe defaults (medium / other / Unknown); a
**present** importance value — recognized or not — is taken verbatim into
the classified item, and every row the store loop adds carries some
processed item's importance value verbatim (never coerced, never
rejected). -/
theorem enum_defaults_and_passthrough {α : Type}
    (strptime : Str → Str → Option α) (rfc822 : Str → Option α) (now : α)
    (H : Str → Str) (company : Company) (filtered : List (RawItem α))
    (items : List ClassifiedItem) (db : List (StoredRow α)) (n : Nat)
    (o : List (Str × Json)) :
    (o.find? (fun p => p.1 == "importance".toList) = none →
      (toClassified o).importance = Json.str ("medium".toList)) ∧
    (o.find? (fun p => p.1 == "event_type".toList) = none →
      (toClassified o).event_type = Json.str ("other".toList)) ∧
    (o.find? (fun p => p.1 == "source_name".toList) = none →
      (toClassified o).source_name = Json.str ("Unknown".toList)) ∧
    (∀ p, o.find? (fun q => q.1 == "importance".toList) = some p →
      (toClassified o).importance = p.2) ∧
    (∀ r ∈ (storeLoop strptime rfc822 now H company filtered items db n).db,
      r ∈ db ∨ r.company = company.id ∧
        ∃ item ∈ items, r.importance = item.importance) := by
  refine ⟨?_, ?_, ?_, ?_, ?_⟩
  · intro hf
    show jgetD o ("importance".toList) (Json.str ("medium".toList)) =
      Json.str ("medium".toList)
    unfold jgetD
    rw [hf]
  · intro hf
    show jgetD o ("event_type".toList) (Json.str ("other".toList)) =
      Json.str ("other".toList)
    unfold jgetD
    rw [hf]
  · intro hf
    show jgetD o ("source_name".toList) (Json.str ("Unknown".toList)) =
      Json.str ("Unknown".toList)
    unfold jgetD
    rw [hf]
  · intro p hf
    show jgetD o ("importance".toList) (Json.str ("medium".toList)) = p.2
    unfold jgetD
    rw [hf]
  · intro r hr
    obtain ⟨extra, heq, hprov, -⟩ :=
      storeLoop_growth strptime rfc822 now H company filtered items db n
    rw [heq] at hr
    rcases List.mem_append.mp hr with h1 | h2
    · exact Or.inl h1
    · exact Or.inr (hprov r h2)

/-- Closed witness for C2's amended statement: a parsed item with no
importance, event type or source name fields gets the defaults. -/
theorem enum_defaults_and_passthrough_witness :
    (toClassified [("relevant".toList, Json.bool true)]).importance =
      Json.str ("medium".toList) ∧
    (toClassified [("relevant".toList, Json.bool true)]).event_type =
      Json.str ("other".toList) ∧
    (toClassified [("relevant".toList, Json.bool true)]).source_name =
      Json.str ("Unknown".toList) := by
  have h := enum_defaults_and_passthrough (α := Nat) (fun _ _ => none)
    (fun _ => none) 0 (fun s => s) acmeCo [] [] [] 0
    [("relevant".toList, Json.bool true)]
  exact ⟨h.1 rfl, h.2.1 rfl, h.2.2.1 rfl⟩

/-! ## C3 — re-running against already-stored URLs is a no-op -/

/-- C3: when every classified item's URL already has a stored row with the
same (company, fingerprint) — URL-less items aside, which are skipped —
the pipeline returns 0 new items, leaves the table exactly as it was (rows
are never updated), and raises no error: the duplicate-fingerprint
collision is an expected no-op. -/
theorem rerun_with_stored_urls_is_noop {α : Type}
    (strptime : Str → Str → Option α) (rfc822 : Str → Option α) (now : α)
    (H : Str → Str) (company : Company) (raw_news : List (RawItem α))
    (parsed : List Json) (db : List (StoredRow α))
    (h : ∀ item ∈ process_news_with_ai parsed, truthy item.url = false ∨
      ∃ s, item.url = Json.str s ∧
        ∃ r ∈ db, r.company = company.id ∧ r.url_hash = H s) :
    fetch_and_store_news strptime rfc822 now H company raw_news parsed db =
      ⟨db, 0, false⟩ := by
  unfold fetch_and_store_news
  split
  · rfl
  · dsimp only
    split
    · rfl
    · split
      · rfl
      · exact storeLoop_noop strptime rfc822 now H company _
          (process_news_with_ai parsed) db 0 h

/-- A pre-existing stored row matching the fixture item's fingerprint. -/
def acmeRow : StoredRow Nat :=
  { company := 7
    organization := 3
    url_hash := "https://news.example.com/acme-earnings".toList
    headline := Json.str []
    summary := Json.str []
    source_url := []
    source_name := Json.str []
    source_type := "web".toList
    publisher_domain := []
    importance := Json.str ("high".toList)
    event_type := Json.str []
    published_at := 0
    fetched_at := 0 }

/-- Closed witness for C3: re-running the fixture pipeline against a table
that already holds the item's fingerprint stores nothing and changes
nothing. -/
theorem rerun_with_stored_urls_is_noop_witness :
    fetch_and_store_news (α := Nat) (fun _ _ => none) (fun _ => none) 99
      (fun s => s) acmeCo [acmeRaw] criticalParsed [acmeRow] =
      ⟨[acmeRow], 0, false⟩ := by
  apply rerun_with_stored_urls_is_noop
  intro item hmem
  rw [show process_news_with_ai criticalParsed =
    [toClassified [("relevant".toList, Json.bool true),
      ("url".toList,
        Json.str ("https://news.example.com/acme-earnings".toList)),
      ("importance".toList, Json.str ("critical".toList)),
      ("event_type".toList, Json.str ("odd".toList))]] from rfl] at hmem
  have hsingle := List.mem_singleton.mp hmem
  subst hsingle
  right
  exact ⟨"https://news.example.com/acme-earnings".toList, rfl,
    acmeRow, List.mem_singleton.mpr rfl, rfl, rfl⟩

/-! ## C4 — (company, fingerprint) uniqueness is preserved -/

/-- C4: the pipeline only ever appends rows to the table (existing rows
are never updated or removed), and because every write is insert-if-absent
keyed by (company, fingerprint), a table with pairwise-distinct keys still
has pairwise-distinct keys after any run. -/
theorem pipeline_preserves_key_uniqueness {α : Type}
    (strptime : Str → Str → Option α) (rfc822 : Str → Option α) (now : α)
    (H : Str → Str) (company : Company) (raw_news : List (RawItem α))
    (parsed : List Json) (db : List (StoredRow α)) (h : keysNodup db) :
    (∃ extra,
      (fetch_and_store_news strptime rfc822 now H company raw_news parsed
        db).db = db ++ extra) ∧
    keysNodup (fetch_and_store_news strptime rfc822 now H company raw_news
      parsed db).db := by
  unfold fetch_and_store_news
  split
  · exact ⟨⟨[], by simp⟩, h⟩
  · dsimp only
    split
    · exact ⟨⟨[], by simp⟩, h⟩
    · split
      · exact ⟨⟨[], by simp⟩, h⟩
      · obtain ⟨extra, heq, -, hnd⟩ := storeLoop_growth strptime rfc822 now H
          company _ (process_news_with_ai parsed) db 0
        exact ⟨⟨extra, heq⟩, hnd h⟩

/-- Closed witness for C4: starting from the empty table (trivially
key-unique), the fixture run yields a key-unique table extending it. -/
theorem pipeline_preserves_key_uniqueness_witness :
    (∃ extra, criticalRun.db = [] ++ extra) ∧ keysNodup criticalRun.db :=
  pipeline_preserves_key_uniqueness (fun _ _ => none) (fun _ => none) 99
    (fun s => s) acmeCo [acmeRaw] criticalParsed [] List.Pairwise.nil

/-! ## C7 — web-news adapter queries and in-adapter dedup -/

/-- C7 counterexample: for "Texas Instruments Incorporated" the source's
first query is the **shortest** name variant — the single word `texas` —
not the legal-suffix-stripped common name `texas instruments`. -/
theorem google_query_counterexample :
    buildGoogleQueries
      ⟨1, 1, "Texas Instruments Incorporated".toList, ["TXN".toList],
        some ("TXN".toList), []⟩ =
      [quote_plus ('"' :: ("texas".toList ++ ['"'])),
       quote_plus ("TXN stock".toList)] ∧
    lowerStr (stripLegalSuffix ("Texas Instruments Incorporated".toList)) =
      "texas instruments".toList ∧
    quote_plus ('"' :: ("texas".toList ++ ['"'])) ≠
      quote_plus ('"' :: ("texas instruments".toList ++ ['"'])) := by
  exact ⟨by decide, by decide, by decide⟩

theorem gnewsItem_url {α : Type} (parsedate : Str → Option α) (e : RssEntry)
    (link : Str) : (gnewsItem parsedate e link).url = link := rfl

/-- Invariant of the per-query item loop: result URLs stay pairwise
distinct and every result URL is in the seen set (shared across queries),
under skip, append and `break`. -/
theorem gnewsLoop_inv {α : Type} (parsedate : Str → Option α)
    (max_results : Nat) (es : List RssEntry) :
    ∀ (seen : List Str) (results : List (RawItem α)),
      ((results.map (fun x => x.url)).Nodup) →
      (∀ r ∈ results, r.url ∈ seen) →
      (((gnewsLoop parsedate max_results es seen results).2.map
          (fun x => x.url)).Nodup ∧
        ∀ r ∈ (gnewsLoop parsedate max_results es seen results).2,
          r.url ∈ (gnewsLoop parsedate max_results es seen results).1) := by
  induction es with
  | nil => intro seen results h1 h2; exact ⟨h1, h2⟩
  | cons e es ih =>
    intro seen results h1 h2
    rw [gnewsLoop]
    dsimp only
    by_cases hskip :
        pyStrip e.link = [] ∨ seen.contains (pyStrip e.link) = true
    · rw [if_pos hskip]
      exact ih seen results h1 h2
    · rw [if_neg hskip]
      have hnotseen : pyStrip e.link ∉ seen := by
        intro hmem
        apply hskip
        right
        rw [List.contains_eq_any_beq]
        exact List.any_eq_true.mpr ⟨_, hmem, beq_self_eq_true _⟩
      have h1' : (((results ++ [gnewsItem parsedate e (pyStrip e.link)]).map
          (fun x => x.url)).Nodup) := by
        rw [List.map_append]
        rw [List.nodup_append]
        refine ⟨h1, by simp, ?_⟩
        intro u hu hu2
        simp only [List.map_cons, List.map_nil, gnewsItem_url,
          List.mem_singleton] at hu2
        obtain ⟨r, hr, hru⟩ := List.mem_map.mp hu
        subst hu2
        exact hnotseen (hru ▸ h2 r hr)
      have h2' : ∀ r ∈ results ++ [gnewsItem parsedate e (pyStrip e.link)],
          r.url ∈ pyStrip e.link :: seen := by
        intro r hr
        rcases List.mem_append.mp hr with hl | hsing
        · exact List.mem_cons_of_mem _ (h2 r hl)
        · rw [List.mem_singleton] at hsing
          subst hsing
          rw [gnewsItem_url]
          exact List.mem_cons_self _ _
      by_cases hbreak : max_results ≤
          (results ++ [gnewsItem parsedate e (pyStrip e.link)]).length
      · rw [if_pos hbreak]
        exact ⟨h1', h2'⟩
      · rw [if_neg hbreak]
        exact ih (pyStrip e.link :: seen) _ h1' h2'

theorem google_fold_inv {α : Type} (parsedate : Str → Option α)
    (fetch : Str → List RssEntry) (days_back max_results : Nat)
    (qs : List Str) :
    ∀ acc : List Str × List (RawItem α),
      ((acc.2.map (fun x => x.url)).Nodup) → (∀ r ∈ acc.2, r.url ∈ acc.1) →
      (((qs.foldl (fun acc q => gnewsLoop parsedate max_results
            (fetch (rssUrl days_back q)) acc.1 acc.2) acc).2.map
          (fun x => x.url)).Nodup) := by
  induction qs with
  | nil => intro acc h1 h2; exact h1
  | cons q qs ih =>
    intro acc h1 h2
    rw [List.foldl_cons]
    obtain ⟨g1, g2⟩ := gnewsLoop_inv parsedate max_results
      (fetch (rssUrl days_back q)) acc.1 acc.2 h1 h2
    exact ih _ g1 g2

/-- C7 amended: the web-news adapter issues exactly two queries when the
company has a primary ticker (one otherwise) — the first being the
**shortest name variant longer than two characters** (quoted; for
multi-word names this can be a single significant word, not the
suffix-stripped common name), the second the primary ticker plus
`stock` — and the merged results are deduplicated by URL across both
queries (first occurrence wins), so the output URLs are pairwise
distinct for every fetch behavior. -/
theorem google_adapter_queries_and_dedupe {α : Type}
    (parsedate : Str → Option α) (fetch : Str → List RssEntry)
    (company : Company) (days_back max_results : Nat) :
    (company.primary_ticker = none →
      buildGoogleQueries company =
        [quote_plus ('"' :: (shortNameOf company.name ++ ['"']))]) ∧
    (∀ sym, company.primary_ticker = some sym →
      buildGoogleQueries company =
        [quote_plus ('"' :: (shortNameOf company.name ++ ['"'])),
         quote_plus (sym ++ " stock".toList)]) ∧
    ((search_google_news parsedate fetch company days_back
        max_results).map (fun x => x.url)).Nodup := by
  refine ⟨?_, ?_, ?_⟩
  · intro h
    unfold buildGoogleQueries
    rw [h]
  · intro sym h
    unfold buildGoogleQueries
    rw [h]
  · unfold search_google_news
    exact google_fold_inv parsedate fetch days_back max_results
      (buildGoogleQueries company) ([], []) (by simp) (by simp)

/-- Closed witness for C7's amended statement at a concrete company and a
fetch returning the same link for both queries: the adapter emits the two
queries and keeps the URL once. -/
theorem google_adapter_queries_and_dedupe_witness :
    buildGoogleQueries acmeCo =
      [quote_plus ('"' :: (shortNameOf acmeCo.name ++ ['"'])),
       quote_plus ("ACME".toList ++ " stock".toList)] ∧
    ((search_google_news (α := Nat) (fun _ => none)
        (fun _ => [{ link := "https://u".toList : RssEntry }]) acmeCo 3
        15).map (fun x => x.url)).Nodup := by
  have h := google_adapter_queries_and_dedupe (α := Nat) (fun _ => none)
    (fun _ => [{ link := "https://u".toList : RssEntry }]) acmeCo 3 15
  exact ⟨h.2.1 ("ACME".toList) rfl, h.2.2⟩

end NewsPipeline
